import Mathlib

/-!
Verification of ODTbrain's 3D backpropagation engine.

Shallow embedding of `odtbrain/_Back_3D.py` (`backpropagate_3d` and its
helpers) and proofs about it.

Modelling conventions:
* Machine floats are modelled by exact real (`ℝ`) / rational (`ℚ`) arithmetic;
  the integer-valued size computations (`orderx`, `ordery`, pad widths) are kept
  executable over `ℕ`/`ℤ`/`ℚ`.
* Arrays are total functions from `ℕ` indices; all array-consuming operations
  (transforms, padding, cropping, accumulation) only read indices inside the
  bounds carried alongside, so values outside the bounds are irrelevant.
* `pyfftw`'s forward/backward 2D transforms are embedded as the literal DFT
  sums they compute (the backward transform is unnormalized; the code divides
  by `lNx * lNy` explicitly, and so does the embedding).
* `scipy.ndimage`'s volume rotation (`_mprotate`/`_rotate`) is an external
  collaborator (spec §6 "Volume Resampler"); it is a parameter `rot : RotOp`
  of the embedding.  The code hands it the angle converted to degrees.
* Python exceptions are modelled with `Except`: the validation and the
  division `2 * np.pi / A` (which raises `ZeroDivisionError` for `A = 0`)
  happen in source order before the `.ok` result is produced.
-/

namespace ODT

open scoped Real BigOperators

/-- Python exception classes that `backpropagate_3d` can raise. -/
inductive PyErr where
  | valueError
  | assertionError
  | notImplementedError
  | zeroDivisionError
  deriving DecidableEq

/-- The `dtype` argument after `np.dtype(dtype)`: the code accepts exactly
`float32` and `float64` and rejects every other dtype name. -/
inductive DType where
  | float32
  | float64
  | other
  deriving DecidableEq

/-- One element of the `padding` argument.  `np.array(padding).dtype` is the
boolean dtype exactly when every element is a Python/numpy boolean. -/
inductive PadElem where
  | bool (b : Bool)
  | nonbool
  deriving DecidableEq

/-- Whether a `padding` element is a boolean (used for the
`np.array(padding).dtype is not np.dtype(bool)` check). -/
def PadElem.isBool : PadElem → Bool
  | .bool _ => true
  | .nonbool => false

/-- The boolean value of a `padding` element (only meaningful after
validation). -/
def PadElem.toBool : PadElem → Bool
  | .bool b => b
  | .nonbool => false

/-- The target size `max(64., 2**np.ceil(np.log(n * padfac) / np.log(2)))` in exact
arithmetic: the power of two `2 ^ ⌈log₂ (n * padfac)⌉`, floored at 64
(`_Back_3D.py:340-341`). -/
def orderFor (n : ℕ) (padfac : ℚ) : ℕ :=
  max 64 (2 ^ Nat.clog 2 ⌈(n : ℚ) * padfac⌉₊)

/-- The four pad widths `padyl, padyr, padxl, padxr`. -/
structure Pads where
  yl : ℤ
  yr : ℤ
  xl : ℤ
  xr : ℤ
  deriving DecidableEq

/-- All arguments of `backpropagate_3d` that feed the numerical pipeline,
after validation.  `lny`/`lnx` are the transverse sinogram dimensions,
`padX`/`padY` are `padding[0]`/`padding[1]`, and `padval = none` is Python's
`padval=None` (edge-value padding). -/
structure Cfg where
  A : ℕ
  lny : ℕ
  lnx : ℕ
  uSin : ℕ → ℕ → ℕ → ℂ
  angles : ℕ → ℝ
  res : ℝ
  nm : ℝ
  lD : ℝ
  weight_angles : Bool
  padX : Bool
  padY : Bool
  padfac : ℚ
  padval : Option ℂ

/-- The total x padding `padx = orderx - lnx if padding[0] else 0` (`_Back_3D.py:343-346`). -/
def padxTot (c : Cfg) : ℤ :=
  if c.padX then (orderFor c.lnx c.padfac : ℤ) - c.lnx else 0

/-- The total y padding `pady = ordery - lny if padding[1] else 0` (`_Back_3D.py:347-350`). -/
def padyTot (c : Cfg) : ℤ :=
  if c.padY then (orderFor c.lny c.padfac : ℤ) - c.lny else 0

/-- The pad widths exactly as computed at `_Back_3D.py:356-359`.  Note that
line 359 computes `padxr = np.int(padx - padyl)` — it subtracts `padyl`
(the *y* leading width), not `padxl`. -/
def cPads (c : Cfg) : Pads :=
  let padx := padxTot c
  let pady := padyTot c
  let padyl : ℤ := ⌈(pady : ℚ) / 2⌉
  let padxl : ℤ := ⌈(padx : ℚ) / 2⌉
  { yl := padyl, yr := pady - padyl, xl := padxl, xr := padx - padyl }

/-- The size `lNy`: the y-size of the padded sinogram `sino.shape[1]`
(`np.pad` adds `padyl` leading and `padyr` trailing rows). -/
def lNy (c : Cfg) : ℕ := c.lny + (cPads c).yl.toNat + (cPads c).yr.toNat

/-- The size `lNx`: the x-size of the padded sinogram `sino.shape[2]`. -/
def lNx (c : Cfg) : ℕ := c.lnx + (cPads c).xl.toNat + (cPads c).xr.toNat

/-- The depth `ln = max(lnx, lny)` (`_Back_3D.py:332`), the output depth `lNz`. -/
def lnMax (c : Cfg) : ℕ := max c.lnx c.lny

/-- The sample frequency `np.fft.fftfreq(n)[j]`: `j / n` for the first half of the spectrum and
`(j - n) / n` for the second half. -/
def fftfreq (n j : ℕ) : ℚ :=
  if 2 * j < n then (j : ℚ) / n else ((j : ℚ) - n) / n

/-- A sample angular frequency `2π * fftfreq n j` (the code's `kx`/`ky`
grids, `_Back_3D.py:424-428`). -/
noncomputable def kfreq (n j : ℕ) : ℝ := 2 * π * (fftfreq n j : ℝ)

/-- The cutoff wavenumber `km = (2 * np.pi * nm) / res` (`_Back_3D.py:306`). -/
noncomputable def km (res nm : ℝ) : ℝ := 2 * π * nm / res

/-- The low-pass filter `filter_klp = (kx**2 + ky**2 < km**2)`
(`_Back_3D.py:437`), as the 0/1 real factor numpy broadcasting produces. -/
noncomputable def filter_klp (c : Cfg) (l k : ℕ) : ℝ :=
  if (kfreq (lNx c) k) ^ 2 + (kfreq (lNy c) l) ^ 2 < (km c.res c.nm) ^ 2 then 1 else 0

/-- The propagation term `M = 1. / km * np.sqrt((km**2 - kx**2 - ky**2) * filter_klp)`
(`_Back_3D.py:440`): the square-root argument is masked *before* the root is
taken. -/
noncomputable def Mterm (c : Cfg) (l k : ℕ) : ℝ :=
  1 / km c.res c.nm *
    Real.sqrt (((km c.res c.nm) ^ 2 - (kfreq (lNx c) k) ^ 2 - (kfreq (lNy c) l) ^ 2) *
      filter_klp c l k)

/-- The angular differential `dphi0 = 2 * np.pi / A` (`_Back_3D.py:430`). -/
noncomputable def dphi0 (c : Cfg) : ℝ := 2 * π / (c.A : ℝ)

/-- The frequency-domain prefactor built at `_Back_3D.py:443-449`:
`-1j*km/(2π)`, times `dphi0`, times `|kx| * filter_klp`, times
`exp(-1j*km*M*lD)`. -/
noncomputable def prefactor (c : Cfg) (l k : ℕ) : ℂ :=
  -Complex.I * (km c.res c.nm : ℂ) / (2 * (π : ℂ)) * (dphi0 c : ℂ) *
    ((|kfreq (lNx c) k| * filter_klp c l k : ℝ) : ℂ) *
    Complex.exp (-Complex.I * (km c.res c.nm : ℂ) * (Mterm c l k : ℂ) * (c.lD : ℂ))

/-- The depth coordinate `z = np.linspace(-center, center, lNz, endpoint=False)[p]` with
`center = lNz / 2.0` and `lNz = ln` (`_Back_3D.py:499-501`): start plus `p`
times the step `(center - (-center)) / lNz`. -/
noncomputable def zcoord (c : Cfg) (p : ℕ) : ℝ :=
  -((lnMax c : ℝ) / 2) + (p : ℝ) * ((lnMax c : ℝ) / (lnMax c : ℝ))

/-- The factor `Mpm1 = km * (Mp - 1)` (`_Back_3D.py:513`). -/
noncomputable def Mpm1 (c : Cfg) (l k : ℕ) : ℝ :=
  km c.res c.nm * (Mterm c l k - 1)

/-- The depth filter slice `filter2[p] = np.exp(1j * zv[p] * Mpm1)`
(`_filter2_func`, `_Back_3D.py:144-150` and 513-516).  It does not depend on
the projection angles. -/
noncomputable def filter2 (c : Cfg) (p l k : ℕ) : ℂ :=
  Complex.exp (Complex.I * (zcoord c p : ℂ) * (Mpm1 c l k : ℂ))

/-- Modelled from the spec: `util.compute_angle_weights_1d` lives in
`odtbrain._util`, which is not among the sources.  Per §4.1 the weight of an
angle is proportional to the local angular spacing — the average of the
forward and the backward gap to the other angles, with wraparound over the
full rotation `2π`.  It depends on the angle list only through its multiset
of values. -/
noncomputable def gapWeight (s : Multiset ℝ) (a : ℝ) : ℝ :=
  (sInf {d : ℝ | 0 < d ∧ ((a + d) ∈ s ∨ (a + d - 2 * π) ∈ s)} +
      sInf {d : ℝ | 0 < d ∧ ((a - d) ∈ s ∨ (a - d + 2 * π) ∈ s)}) / 2

/-- The multiset of the `A` angle values. -/
noncomputable def angleMultiset (c : Cfg) : Multiset ℝ :=
  Multiset.map (fun i : Fin c.A => c.angles (i : ℕ)) Finset.univ.val

/-- Modelled from the spec (§4.1): the per-angle weight sequence returned by
`util.compute_angle_weights_1d(angles)`. -/
noncomputable def compute_angle_weights_1d (c : Cfg) (i : ℕ) : ℝ :=
  gapWeight (angleMultiset c) (c.angles i)

/-- The weighted input `sinogram = weights * uSin` when `weight_angles` else `uSin`
(`_Back_3D.py:322-328`). -/
noncomputable def sinogram (c : Cfg) (i y x : ℕ) : ℂ :=
  if c.weight_angles then (compute_angle_weights_1d c i : ℂ) * c.uSin i y x
  else c.uSin i y x

/-- One axis of `np.pad`: `wl` leading and `wr` trailing entries around `n`
data entries.  `padval = none` is `mode="edge"` (replicate the edge value);
`padval = some v` is `mode="linear_ramp", end_values=(v,)` (ramp linearly
from the edge value to exactly `v` at the outermost entry). -/
noncomputable def pad1 (n wl wr : ℕ) (padval : Option ℂ) (f : ℕ → ℂ) (j : ℕ) : ℂ :=
  if j < wl then
    match padval with
    | none => f 0
    | some v => v + (f 0 - v) * ((j : ℂ) / (wl : ℂ))
  else if j < wl + n then f (j - wl)
  else
    match padval with
    | none => f (n - 1)
    | some v => f (n - 1) + (v - f (n - 1)) * (((j - (wl + n) + 1 : ℕ) : ℂ) / (wr : ℂ))

/-- Application of `np.pad` to one sinogram slice with widths
`((padyl, padyr), (padxl, padxr))`: numpy pads axis 0 (y) first, then
axis 1 (x) of the already-padded rows. -/
noncomputable def pad2 (lny lnx wyl wyr wxl wxr : ℕ) (padval : Option ℂ)
    (f : ℕ → ℕ → ℂ) : ℕ → ℕ → ℂ :=
  fun y x =>
    pad1 lnx wxl wxr padval
      (fun x' => pad1 lny wyl wyr padval (fun y' => f y' x') y) x

/-- The padded sinogram `sino` (`_Back_3D.py:363-371`): negative pad widths
would make `np.pad` raise, so only their nonnegative part is meaningful. -/
noncomputable def sino (c : Cfg) (i : ℕ) : ℕ → ℕ → ℂ :=
  pad2 c.lny c.lnx (cPads c).yl.toNat (cPads c).yr.toNat
    (cPads c).xl.toNat (cPads c).xr.toNat c.padval (fun y x => sinogram c i y x)

/-- The forward 2D DFT that `pyfftw.FFTW(..., axes=(0,1))` computes on one
padded slice (`_Back_3D.py:460-473`). -/
noncomputable def dft2 (ny nx : ℕ) (f : ℕ → ℕ → ℂ) (l k : ℕ) : ℂ :=
  ∑ y ∈ Finset.range ny, ∑ x ∈ Finset.range nx,
    f y x *
      Complex.exp (-(2 * (π : ℂ) * Complex.I) *
        ((l : ℂ) * (y : ℂ) / (ny : ℂ) + (k : ℂ) * (x : ℂ) / (nx : ℂ)))

/-- One output value of the unnormalized backward 2D DFT that
`pyfftw.FFTW(..., direction="FFTW_BACKWARD")` computes (`_Back_3D.py:554-557`,
580-582). -/
noncomputable def idft2val (ny nx : ℕ) (F : ℕ → ℕ → ℂ) (y x : ℕ) : ℂ :=
  ∑ l ∈ Finset.range ny, ∑ k ∈ Finset.range nx,
    F l k *
      Complex.exp ((2 * (π : ℂ) * Complex.I) *
        ((l : ℂ) * (y : ℂ) / (ny : ℂ) + (k : ℂ) * (x : ℂ) / (nx : ℂ)))

/-- The filtered spectrum `projection[i] = fft2(sino[i]) * prefactor` (`_Back_3D.py:469-478`). -/
noncomputable def projection (c : Cfg) (i l k : ℕ) : ℂ :=
  dft2 (lNy c) (lNx c) (sino c i) l k * prefactor c l k

/-- The cropped slice `filtered_proj[p] = ifft2(filter2[p] * projection[i])[padyl:padyl+lny,
padxl:padxl+lnx] / (lNx * lNy)` (`_Back_3D.py:580-586`). -/
noncomputable def filtered_proj (c : Cfg) (i p y x : ℕ) : ℂ :=
  idft2val (lNy c) (lNx c) (fun l k => filter2 c p l k * projection c i l k)
      (y + (cPads c).yl.toNat) (x + (cPads c).xl.toNat) /
    ((lNx c : ℂ) * (lNy c : ℂ))

/-- A real volume indexed `(z, y, x)`. -/
abbrev VolR := ℕ → ℕ → ℕ → ℝ

/-- A complex volume indexed `(z, y, x)`. -/
abbrev VolC := ℕ → ℕ → ℕ → ℂ

/-- The external 3D rotation operator (spec §6 "Volume Resampler", the code's
`_mprotate`): it receives the rotation angle in degrees and the volume held
in the shared array. -/
abbrev RotOp := ℝ → VolR → VolR

/-- Radians to degrees, `np.rad2deg` (`_Back_3D.py:597`). -/
noncomputable def rad2deg (x : ℝ) : ℝ := x * 180 / π

/-- The rotated real part of angle `i`'s filtered projection: the code copies
`filtered_proj.real` into the shared array and rotates it in place
(`_Back_3D.py:594-606`). -/
noncomputable def rotContribRe (rot : RotOp) (c : Cfg) (i : ℕ) : VolR :=
  rot (rad2deg (c.angles i)) fun p y x => (filtered_proj c i p y x).re

/-- The rotated imaginary part of angle `i`'s filtered projection
(`_Back_3D.py:599-614`, only when `onlyreal` is false). -/
noncomputable def rotContribIm (rot : RotOp) (c : Cfg) (i : ℕ) : VolR :=
  rot (rad2deg (c.angles i)) fun p y x => (filtered_proj c i p y x).im

/-- The output volume accumulated by the per-angle loop with
`onlyreal=True`: only `outarr.real += _shared_array` runs
(`_Back_3D.py:537-538, 572-606`). -/
noncomputable def outarrReal (rot : RotOp) (c : Cfg) : VolR :=
  fun p y x => ∑ i ∈ Finset.range c.A, rotContribRe rot c i p y x

/-- The output volume accumulated by the per-angle loop with
`onlyreal=False`: each angle adds its rotated real part to `outarr.real` and
its rotated imaginary part to `outarr.imag` (`_Back_3D.py:540, 572-614`). -/
noncomputable def outarrComplex (rot : RotOp) (c : Cfg) : VolC :=
  fun p y x => ∑ i ∈ Finset.range c.A,
    ((rotContribRe rot c i p y x : ℝ) + (rotContribIm rot c i p y x : ℝ) * Complex.I)

/-- The raw arguments of `backpropagate_3d`, before any validation.
`ushape` is `uSin.shape` (the data `uSin` is read through it), `A` is
`angles.shape[0]`, and `ncores` is the machine's `_ncores`
(`multiprocessing.cpu_count()`). -/
structure Params where
  ushape : List ℕ
  uSin : ℕ → ℕ → ℕ → ℂ
  A : ℕ
  angles : ℕ → ℝ
  res : ℝ
  nm : ℝ
  lD : ℝ
  coords : Option Unit
  weight_angles : Bool
  padding : List PadElem
  padfac : ℚ
  padval : Option ℂ
  intp_order : ℕ
  dtype : DType
  num_cores : ℕ
  ncores : ℕ

/-- The pipeline configuration extracted from validated raw arguments. -/
def cfgOf (p : Params) : Cfg :=
  { A := p.A
    lny := p.ushape.getD 1 0
    lnx := p.ushape.getD 2 0
    uSin := p.uSin
    angles := p.angles
    res := p.res
    nm := p.nm
    lD := p.lD
    weight_angles := p.weight_angles
    padX := (p.padding.getD 0 (.bool false)).toBool
    padY := (p.padding.getD 1 (.bool false)).toBool
    padfac := p.padfac
    padval := p.padval }

/-- The first exception `backpropagate_3d` raises, if any: the validation
sequence of `_Back_3D.py:274-302` in source order (dtype `ValueError`,
`num_cores` assert, shape/padding `ValueError`s, `coords`
`NotImplementedError`), followed by the division `dphi0 = 2 * np.pi / A`,
which raises `ZeroDivisionError` for `A = 0` (line 430) before any transform
is executed. -/
def raisedError (p : Params) : Option PyErr :=
  if ¬(p.dtype = .float32 ∨ p.dtype = .float64) then some .valueError
  else if p.ncores < p.num_cores then some .assertionError
  else if p.ushape.length ≠ 3 then some .valueError
  else if p.ushape.getD 0 0 ≠ p.A then some .valueError
  else if p.padding.length ≠ 2 then some .valueError
  else if ¬(p.padding.all PadElem.isBool = true) then some .valueError
  else if p.coords ≠ none then some .notImplementedError
  else if p.A = 0 then some .zeroDivisionError
  else none

/-- The call `backpropagate_3d` with `onlyreal=False`: raises the first pending
exception, otherwise reconstructs the complex output volume.  No partial
result accompanies an error. -/
noncomputable def backpropagate_3d_complex (rot : RotOp) (p : Params) :
    Except PyErr VolC :=
  match raisedError p with
  | some e => .error e
  | none => .ok (outarrComplex rot (cfgOf p))

/-- The call `backpropagate_3d` with `onlyreal=True`: same exception behaviour, real
output volume. -/
noncomputable def backpropagate_3d_real (rot : RotOp) (p : Params) :
    Except PyErr VolR :=
  match raisedError p with
  | some e => .error e
  | none => .ok (outarrReal rot (cfgOf p))

/-- The identity rotation operator: a legitimate instance of the Volume
Resampler contract at rotation angle `0` degrees. -/
def rotId : RotOp := fun _ v => v

/-- The configuration as permuted by `π`: sinogram slices and angle values
jointly reordered (indices `≥ A` are untouched; they never enter the
pipeline). -/
def permCfg (c : Cfg) (e : Equiv.Perm (Fin c.A)) : Cfg :=
  { c with
    angles := fun n => if h : n < c.A then c.angles (e ⟨n, h⟩) else c.angles n
    uSin := fun n => if h : n < c.A then c.uSin (e ⟨n, h⟩) else c.uSin n }

/-- The raw arguments as permuted by `π`, for the same joint reordering. -/
def permParams (p : Params) (e : Equiv.Perm (Fin p.A)) : Params :=
  { p with
    angles := fun n => if h : n < p.A then p.angles (e ⟨n, h⟩) else p.angles n
    uSin := fun n => if h : n < p.A then p.uSin (e ⟨n, h⟩) else p.uSin n }


/-- The 63×63 configuration with `padfac=1` and `padding=(True, False)` used
to evaluate the padding bug of line 359 (claims C1/C2). -/
noncomputable def padBugCfg : Cfg :=
  { A := 1, lny := 63, lnx := 63, uSin := fun _ _ _ => 0, angles := fun _ => 0,
    res := 160, nm := 3, lD := 0, weight_angles := false,
    padX := true, padY := false, padfac := 1, padval := none }

/-- Arguments with an all-zero 1×63×63 sinogram, `padding=(True, True)`,
`padfac=1` and the nonzero ramp value `padval=1`: the padding injects nonzero
values into an all-zero sinogram (claim C8's counterexample). -/
noncomputable def zeroSinoParams : Params :=
  { ushape := [1, 63, 63], uSin := fun _ _ _ => 0, A := 1, angles := fun _ => 0,
    res := 160, nm := 3, lD := 0, coords := none, weight_angles := false,
    padding := [.bool true, .bool true], padfac := 1, padval := some 1,
    intp_order := 2, dtype := .float64, num_cores := 1, ncores := 1 }

/-- Arguments with an all-zero sinogram and edge-value padding
(`padval=None`), used to witness the amended claim C8. -/
noncomputable def zeroSinoEdgeParams : Params :=
  { ushape := [1, 4, 4], uSin := fun _ _ _ => 0, A := 1, angles := fun _ => 0,
    res := 160, nm := 3, lD := 0, coords := none, weight_angles := true,
    padding := [.bool true, .bool true], padfac := 1, padval := none,
    intp_order := 2, dtype := .float64, num_cores := 1, ncores := 1 }

/-- Arguments rejected by validation (`coords` is not `None`), used to
witness claim C9. -/
noncomputable def badCoordsParams : Params :=
  { ushape := [1, 4, 4], uSin := fun _ _ _ => 0, A := 1, angles := fun _ => 0,
    res := 160, nm := 3, lD := 0, coords := some (), weight_angles := true,
    padding := [.bool true, .bool true], padfac := 1, padval := none,
    intp_order := 2, dtype := .float64, num_cores := 1, ncores := 1 }

/-- Shape-valid arguments with zero projection angles (`A = 0`), used to
witness claim C10. -/
noncomputable def noAnglesParams : Params :=
  { ushape := [0, 4, 4], uSin := fun _ _ _ => 0, A := 0, angles := fun _ => 0,
    res := 160, nm := 3, lD := 0, coords := none, weight_angles := true,
    padding := [.bool true, .bool true], padfac := 1, padval := none,
    intp_order := 2, dtype := .float64, num_cores := 1, ncores := 1 }

/-- A 1×1×1 configuration used to witness claim C5. -/
noncomputable def smallCfg : Cfg :=
  { A := 1, lny := 1, lnx := 1, uSin := fun _ _ _ => 0, angles := fun _ => 0,
    res := 1, nm := 1, lD := 0, weight_angles := false,
    padX := false, padY := false, padfac := 1, padval := none }

/-- The depth-filter phase `z₀ · km · (M - 1)` of the C8 counterexample at
depth index 0 and frequency index `(0, 1)`. -/
noncomputable def thetaCex : ℝ := -(63 / 2) * (3 * π / 80 * (Real.sqrt 11 / 6 - 1))

/-! Theorems about the embedding. -/

lemma clog_two_63 : Nat.clog 2 63 = 6 := by
  have h1 : Nat.clog 2 63 ≤ 6 := (Nat.le_pow_iff_clog_le one_lt_two).mp (by norm_num)
  have h2 : 5 < Nat.clog 2 63 := (Nat.pow_lt_iff_lt_clog one_lt_two).mp (by norm_num)
  omega

lemma orderFor_63_1 : orderFor 63 1 = 64 := by
  rw [orderFor, mul_one]
  norm_num [clog_two_63]

lemma cPads_padBugCfg : cPads padBugCfg = ⟨0, 0, 1, 1⟩ := by
  have hx : padxTot padBugCfg = 1 := by
    simp [padxTot, padBugCfg, orderFor_63_1]
  have hy : padyTot padBugCfg = 0 := by
    simp [padyTot, padBugCfg]
  rw [cPads, hx, hy]
  norm_num
  exact Int.ceil_eq_iff.mpr (by norm_num)

lemma lNx_padBugCfg : lNx padBugCfg = 65 := by rw [lNx, cPads_padBugCfg]; rfl

lemma lNy_padBugCfg : lNy padBugCfg = 63 := by rw [lNy, cPads_padBugCfg]; rfl

/-- Claim C1:  The claim "for every enabled padding axis the padded size is the
smallest power of two ≥ 64 and ≥ (size × padfac)" fails on the code: for a
63×63 sinogram with `padfac = 1` and `padding = (True, False)`, the enabled
x axis should be padded to 64 (the least element of the claimed set), but the
code pads it to 65 — not a power of two at all — because `_Back_3D.py:359`
computes `padxr = padx - padyl` with `padyl` instead of `padxl`.  The
disabled y axis does keep its original size. -/
theorem claim_C1_padded_size_code_eval :
    lNx padBugCfg = 65 ∧ (∀ j : ℕ, 2 ^ j ≠ 65) ∧
    IsLeast {m : ℕ | (∃ j : ℕ, m = 2 ^ j) ∧ 64 ≤ m ∧
      ((padBugCfg.lnx : ℚ) * padBugCfg.padfac ≤ (m : ℚ))} 64 ∧
    lNy padBugCfg = padBugCfg.lny := by
  refine ⟨lNx_padBugCfg, ?_, ⟨⟨⟨6, rfl⟩, le_refl 64, by norm_num [padBugCfg]⟩,
    fun m hm => hm.2.1⟩, lNy_padBugCfg⟩
  intro j h
  match j with
  | 0 => simp at h
  | (s + 1) =>
    have h2 : (2 : ℕ) ∣ 65 := h ▸ dvd_pow_self 2 (Nat.succ_ne_zero s)
    omega

/-- Claim C2:  The even leading/trailing split fails on the code: at the same
input the leading x pad is `⌈padx / 2⌉ = 1` as claimed, but the trailing
x pad is `1`, not `padx - ⌈padx / 2⌉ = 0`, because `_Back_3D.py:359`
subtracts `padyl` instead of `padxl`. -/
theorem claim_C2_pad_split_code_eval :
    (cPads padBugCfg).xl = ⌈(padxTot padBugCfg : ℚ) / 2⌉ ∧
    (cPads padBugCfg).xr = 1 ∧
    padxTot padBugCfg - ⌈(padxTot padBugCfg : ℚ) / 2⌉ = 0 ∧
    (cPads padBugCfg).xr ≠ padxTot padBugCfg - (cPads padBugCfg).xl := by
  have hx : padxTot padBugCfg = 1 := by simp [padxTot, padBugCfg, orderFor_63_1]
  have hc : ⌈((1 : ℤ) : ℚ) / 2⌉ = 1 := Int.ceil_eq_iff.mpr (by norm_num)
  refine ⟨rfl, ?_, ?_, ?_⟩
  · rw [cPads_padBugCfg]
  · rw [hx, hc]; norm_num
  · rw [cPads_padBugCfg, hx]
    simp [hc]

/-- Claim C3:  After the forward 2D transform of the padded slice, every
sinogram slice is multiplied pointwise by the prefactor
`-i·km/(2π) · (2π/A) · |kx| · mask · exp(-i·km·M·lD)`, and the low-pass mask
keeps exactly the frequency-grid points with `kx² + ky² < km²` (strictly). -/
theorem claim_C3_prefactor (c : Cfg) (i l k : ℕ) :
    projection c i l k = dft2 (lNy c) (lNx c) (sino c i) l k * prefactor c l k ∧
    prefactor c l k =
      -Complex.I * (km c.res c.nm : ℂ) / (2 * (π : ℂ)) *
        (2 * (π : ℂ) / (c.A : ℂ)) *
        ((|kfreq (lNx c) k| : ℝ) : ℂ) * ((filter_klp c l k : ℝ) : ℂ) *
        Complex.exp (-Complex.I * (km c.res c.nm : ℂ) * (Mterm c l k : ℂ) * (c.lD : ℂ)) ∧
    (filter_klp c l k = 1 ↔
      (kfreq (lNx c) k) ^ 2 + (kfreq (lNy c) l) ^ 2 < (km c.res c.nm) ^ 2) ∧
    (filter_klp c l k = 0 ↔
      ¬((kfreq (lNx c) k) ^ 2 + (kfreq (lNy c) l) ^ 2 < (km c.res c.nm) ^ 2)) := by
  refine ⟨rfl, ?_, ?_, ?_⟩
  · rw [prefactor, dphi0]
    push_cast
    ring
  · rw [filter_klp]; split_ifs with h <;> simp [h]
  · rw [filter_klp]; split_ifs with h <;> simp [h]

/-- Claim C4:  The square root in `M` is only ever taken of a nonnegative
argument: the masked term `(km² - kx² - ky²) * filter_klp` is nonnegative
everywhere, and outside the passband `M` is zero (so no NaN can enter the
prefactor or the depth filter in the real model). -/
theorem claim_C4_sqrt_safe (c : Cfg) (l k : ℕ) :
    0 ≤ ((km c.res c.nm) ^ 2 - (kfreq (lNx c) k) ^ 2 - (kfreq (lNy c) l) ^ 2) *
        filter_klp c l k ∧
    (¬((kfreq (lNx c) k) ^ 2 + (kfreq (lNy c) l) ^ 2 < (km c.res c.nm) ^ 2) →
      Mterm c l k = 0) ∧
    Mterm c l k = 1 / km c.res c.nm *
      Real.sqrt (((km c.res c.nm) ^ 2 - (kfreq (lNx c) k) ^ 2 - (kfreq (lNy c) l) ^ 2) *
        filter_klp c l k) := by
  refine ⟨?_, ?_, rfl⟩
  · rw [filter_klp]; split_ifs with h
    · rw [mul_one]; linarith
    · rw [mul_zero]
  · intro h
    rw [Mterm, filter_klp, if_neg h, mul_zero, Real.sqrt_zero, mul_zero]

/-- Claim C5:  For every depth index `p < ln`, the depth filter slice equals
`exp(i·(p - ln/2)·km·(M - 1))` pointwise on the padded transverse grid, and
it is independent of the angle data (`A`, `angles`, `uSin`) — it is built
once, before the per-angle loop, and reused unchanged for all angles. -/
theorem claim_C5_depth_filter (c : Cfg) (p : ℕ) (hp : p < lnMax c) :
    (∀ l k, filter2 c p l k =
      Complex.exp (Complex.I * (((p : ℝ) - (lnMax c : ℝ) / 2 : ℝ) : ℂ) *
        ((km c.res c.nm : ℝ) : ℂ) * (((Mterm c l k : ℝ) : ℂ) - 1))) ∧
    (∀ (A' : ℕ) (ang' : ℕ → ℝ) (uS' : ℕ → ℕ → ℕ → ℂ),
      filter2 { c with A := A', angles := ang', uSin := uS' } = filter2 c) := by
  constructor
  · intro l k
    have hln : (lnMax c : ℝ) ≠ 0 := Nat.cast_ne_zero.mpr (by omega)
    rw [filter2, zcoord, Mpm1, div_self hln]
    congr 1
    push_cast
    ring
  · intro A' ang' uS'
    rfl

/-- Witness for C5 at the concrete configuration `smallCfg`, `p = 0`. -/
theorem claim_C5_depth_filter_witness :
    0 < lnMax smallCfg ∧
    ((∀ l k, filter2 smallCfg 0 l k =
      Complex.exp (Complex.I * (((0 : ℕ) : ℝ) - (lnMax smallCfg : ℝ) / 2 : ℝ) *
        ((km smallCfg.res smallCfg.nm : ℝ) : ℂ) *
        (((Mterm smallCfg l k : ℝ) : ℂ) - 1))) ∧
    (∀ (A' : ℕ) (ang' : ℕ → ℝ) (uS' : ℕ → ℕ → ℕ → ℂ),
      filter2 { smallCfg with A := A', angles := ang', uSin := uS' } =
        filter2 smallCfg)) :=
  ⟨by decide, claim_C5_depth_filter smallCfg 0 (by decide)⟩

/-- Claim C6:  For identical inputs, `onlyreal=True` returns exactly the
elementwise real part of the `onlyreal=False` result (and the same error in
the error cases). -/
theorem claim_C6_onlyreal (rot : RotOp) (p : Params) :
    backpropagate_3d_real rot p =
      Except.map (fun v : VolC => fun z y x => (v z y x).re)
        (backpropagate_3d_complex rot p) := by
  rw [backpropagate_3d_real, backpropagate_3d_complex]
  cases raisedError p with
  | some e => rfl
  | none =>
    simp only [Except.map]
    congr 1
    funext z y x
    rw [outarrReal, outarrComplex, Complex.re_sum]
    refine Finset.sum_congr rfl fun i _ => ?_
    simp



lemma angleMultiset_perm (c : Cfg) (e : Equiv.Perm (Fin c.A)) :
    angleMultiset (permCfg c e) = angleMultiset c := by
  show Multiset.map (fun i : Fin c.A => (permCfg c e).angles (i : ℕ)) Finset.univ.val =
    Multiset.map (fun i : Fin c.A => c.angles (i : ℕ)) Finset.univ.val
  have h1 : (fun i : Fin c.A => (permCfg c e).angles (i : ℕ)) =
      fun i : Fin c.A => c.angles ((e i : Fin c.A) : ℕ) := by
    funext i
    have hlt : (i : ℕ) < c.A := i.isLt
    simp [permCfg, hlt]
  rw [h1]
  have h2 : Multiset.map (fun i : Fin c.A => c.angles ((e i : Fin c.A) : ℕ)) Finset.univ.val =
      Multiset.map (fun i : Fin c.A => c.angles (i : ℕ)) (Multiset.map e Finset.univ.val) := by
    rw [Multiset.map_map]; rfl
  rw [h2]
  congr 1
  calc Multiset.map (⇑e) Finset.univ.val
      = (Finset.univ.map e.toEmbedding).val := by rw [Finset.map_val]; rfl
    _ = Finset.univ.val := by rw [Finset.map_univ_equiv]

lemma raisedError_perm (p : Params) (e : Equiv.Perm (Fin p.A)) :
    raisedError (permParams p e) = raisedError p := rfl



lemma sinogram_perm (c : Cfg) (e : Equiv.Perm (Fin c.A)) (i : Fin c.A) (y x : ℕ) :
    sinogram (permCfg c e) (i : ℕ) y x = sinogram c ((e i : Fin c.A) : ℕ) y x := by
  have hlt : (i : ℕ) < c.A := i.isLt
  have ha : (permCfg c e).angles (i : ℕ) = c.angles ((e i : Fin c.A) : ℕ) := by
    simp [permCfg, hlt]
  have hu : (permCfg c e).uSin (i : ℕ) = c.uSin ((e i : Fin c.A) : ℕ) := by
    simp [permCfg, hlt]
  have hw : compute_angle_weights_1d (permCfg c e) (i : ℕ) =
      compute_angle_weights_1d c ((e i : Fin c.A) : ℕ) := by
    rw [compute_angle_weights_1d, compute_angle_weights_1d, angleMultiset_perm, ha]
  rw [sinogram, sinogram, hw, hu]
  rfl

lemma sino_perm (c : Cfg) (e : Equiv.Perm (Fin c.A)) (i : Fin c.A) :
    sino (permCfg c e) (i : ℕ) = sino c ((e i : Fin c.A) : ℕ) := by
  have hs : (fun y x => sinogram (permCfg c e) (i : ℕ) y x) =
      fun y x => sinogram c ((e i : Fin c.A) : ℕ) y x := by
    funext y x; exact sinogram_perm c e i y x
  rw [sino, sino, hs]
  rfl

lemma filtered_proj_perm (c : Cfg) (e : Equiv.Perm (Fin c.A)) (i : Fin c.A)
    (p y x : ℕ) :
    filtered_proj (permCfg c e) (i : ℕ) p y x =
      filtered_proj c ((e i : Fin c.A) : ℕ) p y x := by
  have hp : projection (permCfg c e) (i : ℕ) = projection c ((e i : Fin c.A) : ℕ) := by
    funext l k
    rw [projection, projection, sino_perm]
    rfl
  rw [filtered_proj, filtered_proj, hp]
  rfl

lemma rotContribRe_perm (rot : RotOp) (c : Cfg) (e : Equiv.Perm (Fin c.A))
    (i : Fin c.A) :
    rotContribRe rot (permCfg c e) (i : ℕ) =
      rotContribRe rot c ((e i : Fin c.A) : ℕ) := by
  have hlt : (i : ℕ) < c.A := i.isLt
  have hang : (permCfg c e).angles (i : ℕ) = c.angles ((e i : Fin c.A) : ℕ) := by
    simp [permCfg, hlt]
  have hfp : (fun p y x => (filtered_proj (permCfg c e) (i : ℕ) p y x).re) =
      fun p y x => (filtered_proj c ((e i : Fin c.A) : ℕ) p y x).re := by
    funext p y x
    exact congrArg Complex.re (filtered_proj_perm c e i p y x)
  rw [rotContribRe, rotContribRe, hang, hfp]

lemma rotContribIm_perm (rot : RotOp) (c : Cfg) (e : Equiv.Perm (Fin c.A))
    (i : Fin c.A) :
    rotContribIm rot (permCfg c e) (i : ℕ) =
      rotContribIm rot c ((e i : Fin c.A) : ℕ) := by
  have hlt : (i : ℕ) < c.A := i.isLt
  have hang : (permCfg c e).angles (i : ℕ) = c.angles ((e i : Fin c.A) : ℕ) := by
    simp [permCfg, hlt]
  have hfp : (fun p y x => (filtered_proj (permCfg c e) (i : ℕ) p y x).im) =
      fun p y x => (filtered_proj c ((e i : Fin c.A) : ℕ) p y x).im := by
    funext p y x
    exact congrArg Complex.im (filtered_proj_perm c e i p y x)
  rw [rotContribIm, rotContribIm, hang, hfp]

lemma outarrComplex_perm (rot : RotOp) (c : Cfg) (e : Equiv.Perm (Fin c.A)) :
    outarrComplex rot (permCfg c e) = outarrComplex rot c := by
  funext pz y x
  show (∑ i ∈ Finset.range c.A,
      ((rotContribRe rot (permCfg c e) i pz y x : ℝ) +
        (rotContribIm rot (permCfg c e) i pz y x : ℝ) * Complex.I)) =
    ∑ i ∈ Finset.range c.A,
      ((rotContribRe rot c i pz y x : ℝ) +
        (rotContribIm rot c i pz y x : ℝ) * Complex.I)
  rw [← Fin.sum_univ_eq_sum_range (fun i =>
    ((rotContribRe rot (permCfg c e) i pz y x : ℝ) +
      (rotContribIm rot (permCfg c e) i pz y x : ℝ) * Complex.I)) c.A]
  rw [← Fin.sum_univ_eq_sum_range (fun i =>
    ((rotContribRe rot c i pz y x : ℝ) +
      (rotContribIm rot c i pz y x : ℝ) * Complex.I)) c.A]
  rw [Finset.sum_congr rfl fun (i : Fin c.A) _ => by
    rw [rotContribRe_perm rot c e i, rotContribIm_perm rot c e i]]
  exact Equiv.sum_comp e fun i : Fin c.A =>
    ((rotContribRe rot c (i : ℕ) pz y x : ℝ) +
      (rotContribIm rot c (i : ℕ) pz y x : ℝ) * Complex.I)

lemma outarrReal_perm (rot : RotOp) (c : Cfg) (e : Equiv.Perm (Fin c.A)) :
    outarrReal rot (permCfg c e) = outarrReal rot c := by
  funext pz y x
  show (∑ i ∈ Finset.range c.A, rotContribRe rot (permCfg c e) i pz y x) =
    ∑ i ∈ Finset.range c.A, rotContribRe rot c i pz y x
  rw [← Fin.sum_univ_eq_sum_range (fun i => rotContribRe rot (permCfg c e) i pz y x) c.A]
  rw [← Fin.sum_univ_eq_sum_range (fun i => rotContribRe rot c i pz y x) c.A]
  rw [Finset.sum_congr rfl fun (i : Fin c.A) _ => by
    rw [rotContribRe_perm rot c e i]]
  exact Equiv.sum_comp e fun i : Fin c.A => rotContribRe rot c (i : ℕ) pz y x

/-- Claim C7:  Joint reordering of the sinogram slices and the angle values by
any permutation yields the same output volume (exactly, in the real model):
the accumulation over angles is a commutative sum, and the spec-modelled
angle weights depend on the angles only through their multiset. -/
theorem claim_C7_angle_permutation (p : Params) (e : Equiv.Perm (Fin p.A))
    (rot : RotOp) :
    backpropagate_3d_complex rot (permParams p e) = backpropagate_3d_complex rot p ∧
    backpropagate_3d_real rot (permParams p e) = backpropagate_3d_real rot p := by
  have hcfg : cfgOf (permParams p e) = permCfg (cfgOf p) e := rfl
  constructor
  · rw [backpropagate_3d_complex, backpropagate_3d_complex, raisedError_perm]
    cases raisedError p with
    | some err => rfl
    | none => rw [hcfg, outarrComplex_perm]
  · rw [backpropagate_3d_real, backpropagate_3d_real, raisedError_perm]
    cases raisedError p with
    | some err => rfl
    | none => rw [hcfg, outarrReal_perm]



/-- Claim C9:  Whenever the dtype is unsupported, the sinogram is not 3D, the
projection count differs from the angle count, the padding argument is not a
length-2 boolean pair, the requested worker count exceeds the available
cores, or a non-`None` `coords` is given, `backpropagate_3d` raises before
any transform/filter/allocation and returns no partial result (in both
`onlyreal` modes). -/
theorem claim_C9_validation (p : Params) (rot : RotOp)
    (h : (p.dtype ≠ .float32 ∧ p.dtype ≠ .float64) ∨ p.ushape.length ≠ 3 ∨
      p.ushape.getD 0 0 ≠ p.A ∨ p.padding.length ≠ 2 ∨
      ¬(p.padding.all PadElem.isBool = true) ∨ p.ncores < p.num_cores ∨
      p.coords ≠ none) :
    (∃ err, backpropagate_3d_real rot p = .error err) ∧
    (∃ err, backpropagate_3d_complex rot p = .error err) := by
  have hv : ∃ err, raisedError p = some err := by
    rw [raisedError]
    split_ifs <;> first | exact ⟨_, rfl⟩ | tauto
  obtain ⟨err, herr⟩ := hv
  rw [backpropagate_3d_real, backpropagate_3d_complex, herr]
  exact ⟨⟨err, rfl⟩, ⟨err, rfl⟩⟩

/-- Witness for C9. -/
theorem claim_C9_validation_witness :
    badCoordsParams.coords ≠ none ∧
    (∃ err, backpropagate_3d_real rotId badCoordsParams = .error err) ∧
    (∃ err, backpropagate_3d_complex rotId badCoordsParams = .error err) :=
  ⟨by decide, claim_C9_validation badCoordsParams rotId (by decide)⟩

/-- Claim C10:  A shape-valid input with zero projection angles (`A = 0`)
passes validation but the call still fails — with the unguarded
`ZeroDivisionError` from `dphi0 = 2 * np.pi / A` (`_Back_3D.py:430`), not
with a validation error, and no (empty) volume is returned. -/
theorem claim_C10_zero_angles (p : Params) (rot : RotOp)
    (hA : p.A = 0)
    (hdt : p.dtype = .float32 ∨ p.dtype = .float64)
    (hnc : ¬(p.ncores < p.num_cores))
    (hsh : p.ushape.length = 3)
    (hlen : p.ushape.getD 0 0 = p.A)
    (hpad : p.padding.length = 2)
    (hpb : p.padding.all PadElem.isBool = true)
    (hco : p.coords = none) :
    backpropagate_3d_real rot p = .error .zeroDivisionError ∧
    backpropagate_3d_complex rot p = .error .zeroDivisionError := by
  have hv : raisedError p = some .zeroDivisionError := by
    rw [raisedError]
    split_ifs <;> simp_all
  rw [backpropagate_3d_real, backpropagate_3d_complex, hv]
  exact ⟨rfl, rfl⟩

/-- Witness for C10. -/
theorem claim_C10_zero_angles_witness :
    noAnglesParams.A = 0 ∧
    backpropagate_3d_real rotId noAnglesParams = .error .zeroDivisionError ∧
    backpropagate_3d_complex rotId noAnglesParams = .error .zeroDivisionError :=
  ⟨rfl, claim_C10_zero_angles noAnglesParams rotId rfl (Or.inr rfl) (by decide)
    rfl rfl rfl rfl rfl⟩



lemma pad1_zero {n wl wr : ℕ} {pv : Option ℂ} {f : ℕ → ℂ}
    (hf : ∀ j, f j = 0) (hv : pv = none ∨ pv = some 0) (j : ℕ) :
    pad1 n wl wr pv f j = 0 := by
  rcases hv with hv | hv <;> subst hv <;>
    · rw [pad1]
      split_ifs <;> simp [hf]

lemma sinogram_zero {c : Cfg} (hu : ∀ i y x, c.uSin i y x = 0) (i y x : ℕ) :
    sinogram c i y x = 0 := by
  rw [sinogram]
  split_ifs <;> simp [hu]

lemma sino_zero {c : Cfg} (hu : ∀ i y x, c.uSin i y x = 0)
    (hv : c.padval = none ∨ c.padval = some 0) (i y x : ℕ) :
    sino c i y x = 0 := by
  rw [sino, pad2]
  exact pad1_zero (fun x' => pad1_zero (fun y' => sinogram_zero hu i y' x') hv y) hv x

lemma filtered_proj_zero {c : Cfg} (hu : ∀ i y x, c.uSin i y x = 0)
    (hv : c.padval = none ∨ c.padval = some 0) (i p y x : ℕ) :
    filtered_proj c i p y x = 0 := by
  have hd : ∀ l k, dft2 (lNy c) (lNx c) (sino c i) l k = 0 := by
    intro l k
    rw [dft2]
    refine Finset.sum_eq_zero fun a _ => Finset.sum_eq_zero fun b _ => ?_
    rw [sino_zero hu hv, zero_mul]
  have hpj : ∀ l k, projection c i l k = 0 := by
    intro l k
    rw [projection, hd, zero_mul]
  rw [filtered_proj, idft2val]
  rw [Finset.sum_eq_zero fun l _ => Finset.sum_eq_zero fun k _ => by
    rw [hpj, mul_zero, zero_mul]]
  rw [zero_div]

/-- Claim C8 (amended):  For every all-zero input sinogram, any angle set and
any option combination in which `padval` is unset (`None`, edge padding) or
zero, a call that passes validation returns an exactly zero volume, in both
real and imaginary parts (the rotation operator maps the zero volume to
itself, per the Volume Resampler contract's zero fill).  The original claim,
for *any* option combination, is refuted by `claim_C8_counterexample`:
a nonzero `padval` ramps an all-zero sinogram to nonzero padded values. -/
theorem claim_C8_zero_input (p : Params) (rot : RotOp)
    (hu : ∀ i y x, p.uSin i y x = 0)
    (hv : p.padval = none ∨ p.padval = some 0)
    (hrot : ∀ a, rot a (fun _ _ _ => (0 : ℝ)) = fun _ _ _ => (0 : ℝ))
    (hok : raisedError p = none) :
    backpropagate_3d_real rot p = .ok (fun _ _ _ => (0 : ℝ)) ∧
    backpropagate_3d_complex rot p = .ok (fun _ _ _ => (0 : ℂ)) := by
  have hre : ∀ i, rotContribRe rot (cfgOf p) i = fun _ _ _ => (0 : ℝ) := by
    intro i
    rw [rotContribRe]
    rw [show (fun pz y x => (filtered_proj (cfgOf p) i pz y x).re) =
      fun _ _ _ => (0 : ℝ) from by
      funext pz y x
      rw [filtered_proj_zero hu hv]
      exact Complex.zero_re]
    exact hrot _
  have him : ∀ i, rotContribIm rot (cfgOf p) i = fun _ _ _ => (0 : ℝ) := by
    intro i
    rw [rotContribIm]
    rw [show (fun pz y x => (filtered_proj (cfgOf p) i pz y x).im) =
      fun _ _ _ => (0 : ℝ) from by
      funext pz y x
      rw [filtered_proj_zero hu hv]
      exact Complex.zero_im]
    exact hrot _
  constructor
  · rw [backpropagate_3d_real, hok]
    show Except.ok (outarrReal rot (cfgOf p)) = Except.ok fun _ _ _ => (0 : ℝ)
    congr 1
    funext pz y x
    rw [outarrReal]
    exact Finset.sum_eq_zero fun i _ => by rw [hre i]
  · rw [backpropagate_3d_complex, hok]
    show Except.ok (outarrComplex rot (cfgOf p)) = Except.ok fun _ _ _ => (0 : ℂ)
    congr 1
    funext pz y x
    rw [outarrComplex]
    refine Finset.sum_eq_zero fun i _ => ?_
    rw [hre i, him i]
    simp

/-- Witness for the amended C8. -/
theorem claim_C8_zero_input_witness :
    (∀ i y x, zeroSinoEdgeParams.uSin i y x = 0) ∧
    zeroSinoEdgeParams.padval = none ∧
    backpropagate_3d_real rotId zeroSinoEdgeParams = .ok (fun _ _ _ => (0 : ℝ)) ∧
    backpropagate_3d_complex rotId zeroSinoEdgeParams = .ok (fun _ _ _ => (0 : ℂ)) :=
  ⟨fun _ _ _ => rfl, rfl,
    claim_C8_zero_input zeroSinoEdgeParams rotId (fun _ _ _ => rfl) (Or.inl rfl)
      (fun _ => rfl) rfl⟩



lemma cPads_cex : cPads (cfgOf zeroSinoParams) = ⟨1, 0, 1, 0⟩ := by
  have hx : padxTot (cfgOf zeroSinoParams) = 1 := by
    simp [padxTot, cfgOf, zeroSinoParams, orderFor_63_1, PadElem.toBool]
  have hy : padyTot (cfgOf zeroSinoParams) = 1 := by
    simp [padyTot, cfgOf, zeroSinoParams, orderFor_63_1, PadElem.toBool]
  rw [cPads, hx, hy]
  have hc : ⌈(1 : ℚ) / 2⌉ = 1 := Int.ceil_eq_iff.mpr (by norm_num)
  norm_num [hc]

lemma lNx_cex : lNx (cfgOf zeroSinoParams) = 64 := by rw [lNx, cPads_cex]; rfl
lemma lNy_cex : lNy (cfgOf zeroSinoParams) = 64 := by rw [lNy, cPads_cex]; rfl
lemma lnMax_cex : lnMax (cfgOf zeroSinoParams) = 63 := by rfl

lemma km_cex : km (cfgOf zeroSinoParams).res (cfgOf zeroSinoParams).nm = 3 * π / 80 := by
  rw [km]
  show 2 * π * 3 / 160 = 3 * π / 80
  ring

lemma fftfreq_64_0 : fftfreq 64 0 = 0 := by norm_num [fftfreq]
lemma fftfreq_64_1 : fftfreq 64 1 = 1 / 64 := by norm_num [fftfreq]
lemma fftfreq_64_63 : fftfreq 64 63 = -1 / 64 := by norm_num [fftfreq]

lemma kfreq_64_0 : kfreq 64 0 = 0 := by
  rw [kfreq, fftfreq_64_0]; norm_num

lemma kfreq_64_1 : kfreq 64 1 = π / 32 := by
  rw [kfreq, fftfreq_64_1]; push_cast; ring

lemma kfreq_64_63 : kfreq 64 63 = -(π / 32) := by
  rw [kfreq, fftfreq_64_63]; push_cast; ring

/-- Reduction of the counterexample's low-pass mask to a rational test. -/
lemma filter_klp_cex (l k : ℕ) :
    filter_klp (cfgOf zeroSinoParams) l k =
      if ((fftfreq 64 k) ^ 2 + (fftfreq 64 l) ^ 2 : ℚ) < 9 / 25600 then 1 else 0 := by
  rw [filter_klp, lNx_cex, lNy_cex, km_cex]
  refine if_congr ?_ rfl rfl
  have hpos : (0 : ℝ) < (2 * π) ^ 2 := by positivity
  rw [kfreq, kfreq]
  rw [show (2 * π * ((fftfreq 64 k : ℚ) : ℝ)) ^ 2 + (2 * π * ((fftfreq 64 l : ℚ) : ℝ)) ^ 2 =
    (2 * π) ^ 2 * (((fftfreq 64 k : ℚ) : ℝ) ^ 2 + ((fftfreq 64 l : ℚ) : ℝ) ^ 2) from by ring]
  rw [show (3 * π / 80 : ℝ) ^ 2 = (2 * π) ^ 2 * (9 / 25600) from by ring]
  rw [mul_lt_mul_left hpos]
  rw [show ((9 : ℝ) / 25600) = ((9 / 25600 : ℚ) : ℝ) from by norm_num]
  rw [show ((fftfreq 64 k : ℚ) : ℝ) ^ 2 + ((fftfreq 64 l : ℚ) : ℝ) ^ 2 =
    (((fftfreq 64 k ^ 2 + fftfreq 64 l ^ 2 : ℚ)) : ℝ) from by push_cast; ring]
  exact Rat.cast_lt

lemma filter_klp_cex_01 : filter_klp (cfgOf zeroSinoParams) 0 1 = 1 := by
  rw [filter_klp_cex, if_pos]
  rw [fftfreq_64_0, fftfreq_64_1]
  norm_num

lemma filter_klp_cex_0_63 : filter_klp (cfgOf zeroSinoParams) 0 63 = 1 := by
  rw [filter_klp_cex, if_pos]
  rw [fftfreq_64_0, fftfreq_64_63]
  norm_num

lemma fftfreq64_sq_ge_one {j : ℕ} (hj : j < 64) (h0 : j ≠ 0) :
    1 / 4096 ≤ (fftfreq 64 j) ^ 2 := by
  rw [fftfreq]
  split_ifs with h
  · have h1 : (1 : ℚ) ≤ (j : ℚ) := by exact_mod_cast Nat.one_le_iff_ne_zero.mpr h0
    have h2 : (j : ℚ) ≤ 31 := by exact_mod_cast (by omega : j ≤ 31)
    nlinarith
  · have h1 : (j : ℚ) ≤ 63 := by exact_mod_cast (by omega : j ≤ 63)
    have h2 : (32 : ℚ) ≤ (j : ℚ) := by exact_mod_cast (by omega : 32 ≤ j)
    nlinarith

lemma fftfreq64_sq_ge_four {j : ℕ} (hj : j < 64) (h0 : j ≠ 0) (h1 : j ≠ 1)
    (h63 : j ≠ 63) : 1 / 1024 ≤ (fftfreq 64 j) ^ 2 := by
  rw [fftfreq]
  split_ifs with h
  · have h2 : (2 : ℚ) ≤ (j : ℚ) := by exact_mod_cast (by omega : 2 ≤ j)
    have h3 : (j : ℚ) ≤ 31 := by exact_mod_cast (by omega : j ≤ 31)
    nlinarith
  · have h2 : (j : ℚ) ≤ 62 := by exact_mod_cast (by omega : j ≤ 62)
    have h3 : (32 : ℚ) ≤ (j : ℚ) := by exact_mod_cast (by omega : 32 ≤ j)
    nlinarith

lemma prefactor_cex_zero {l k : ℕ} (hl : l < 64) (hk : k < 64)
    (h : ¬(l = 0 ∧ (k = 1 ∨ k = 63))) :
    prefactor (cfgOf zeroSinoParams) l k = 0 := by
  rw [prefactor]
  rcases Nat.eq_zero_or_pos k with hk0 | hkpos
  · subst hk0
    rw [lNx_cex, kfreq_64_0]
    simp
  · have hmask : filter_klp (cfgOf zeroSinoParams) l k = 0 := by
      rw [filter_klp_cex, if_neg]
      push_neg
      by_cases hk1 : k = 1 ∨ k = 63
      · have hl0 : l ≠ 0 := fun hl0 => h ⟨hl0, hk1⟩
        have hksq : (fftfreq 64 k) ^ 2 = 1 / 4096 := by
          rcases hk1 with rfl | rfl
          · rw [fftfreq_64_1]; norm_num
          · rw [fftfreq_64_63]; norm_num
        have hlsq := fftfreq64_sq_ge_one hl hl0
        rw [hksq]
        linarith
      · push_neg at hk1
        have hksq := fftfreq64_sq_ge_four hk (by omega) hk1.1 hk1.2
        have hlsq : (0 : ℚ) ≤ (fftfreq 64 l) ^ 2 := sq_nonneg _
        linarith
    rw [hmask]
    simp



lemma sinogram_cex (i y x : ℕ) : sinogram (cfgOf zeroSinoParams) i y x = 0 := by
  simp [sinogram, cfgOf, zeroSinoParams]

lemma sino_cex_eval : sino (cfgOf zeroSinoParams) 0 =
    pad2 63 63 1 0 1 0 (some 1) fun y x => sinogram (cfgOf zeroSinoParams) 0 y x := by
  rw [sino, cPads_cex]
  rfl

lemma sino_cex {y x : ℕ} (hy : y < 64) (hx : x < 64) :
    sino (cfgOf zeroSinoParams) 0 y x = if y = 0 ∨ x = 0 then 1 else 0 := by
  rw [sino_cex_eval, pad2]
  rcases Nat.eq_zero_or_pos x with rfl | hxpos
  · rw [pad1, if_pos (by norm_num : (0:ℕ) < 1)]
    simp
  · have h1 : ¬ x < 1 := by omega
    have h2 : x < 1 + 63 := by omega
    rw [pad1, if_neg h1, if_pos h2]
    rcases Nat.eq_zero_or_pos y with rfl | hypos
    · rw [pad1, if_pos (by norm_num : (0:ℕ) < 1)]
      rw [sinogram_cex]
      have hx0 : ¬ x = 0 := by omega
      simp
    · have h3 : ¬ y < 1 := by omega
      have h4 : y < 1 + 63 := by omega
      rw [pad1, if_neg h3, if_pos h4, sinogram_cex]
      have : ¬(y = 0 ∨ x = 0) := by omega
      rw [if_neg this]

lemma expsum64 {k : ℕ} (hk : ¬((64 : ℤ) ∣ (k : ℤ))) :
    ∑ x ∈ Finset.range 64,
      Complex.exp (-(2 * (π : ℂ) * Complex.I) * ((k : ℂ) * (x : ℂ) / 64)) = 0 := by
  have h2pi : (2 * (π : ℂ) * Complex.I) ≠ 0 := by
    refine mul_ne_zero (mul_ne_zero two_ne_zero ?_) Complex.I_ne_zero
    exact Complex.ofReal_ne_zero.mpr Real.pi_ne_zero
  set ω : ℂ := Complex.exp (-(2 * (π : ℂ) * Complex.I) * ((k : ℂ) / 64)) with hω
  have hterm : ∀ x : ℕ,
      Complex.exp (-(2 * (π : ℂ) * Complex.I) * ((k : ℂ) * (x : ℂ) / 64)) = ω ^ x := by
    intro x
    rw [hω, ← Complex.exp_nat_mul]
    congr 1
    ring
  rw [Finset.sum_congr rfl fun x _ => hterm x]
  have hω64 : ω ^ 64 = 1 := by
    rw [hω, ← Complex.exp_nat_mul]
    rw [show ((64 : ℕ) : ℂ) * (-(2 * (π : ℂ) * Complex.I) * ((k : ℂ) / 64)) =
      ((-(k : ℤ) : ℤ) : ℂ) * (2 * (π : ℂ) * Complex.I) from by push_cast; ring]
    exact Complex.exp_int_mul_two_pi_mul_I _
  have hω1 : ω ≠ 1 := by
    intro hone
    rw [hω, Complex.exp_eq_one_iff] at hone
    obtain ⟨n, hn⟩ := hone
    have h3 : (2 * (π : ℂ) * Complex.I) * (-(k : ℂ) / 64) =
        (2 * (π : ℂ) * Complex.I) * (n : ℂ) := by linear_combination hn
    have h4 := mul_left_cancel₀ h2pi h3
    have h5 : ((k : ℤ) : ℂ) = (((-64) * n : ℤ) : ℂ) := by
      push_cast
      linear_combination (-64 : ℂ) * h4
    have h6 : (k : ℤ) = -64 * n := by exact_mod_cast h5
    exact hk ⟨-n, by omega⟩
  rw [geom_sum_eq hω1, hω64]
  simp

lemma dft2_cex {k : ℕ} (hk : k = 1 ∨ k = 63) :
    dft2 (lNy (cfgOf zeroSinoParams)) (lNx (cfgOf zeroSinoParams))
      (sino (cfgOf zeroSinoParams) 0) 0 k = 63 := by
  have hdvd : ¬((64 : ℤ) ∣ (k : ℤ)) := by
    rcases hk with rfl | rfl <;> decide
  rw [lNy_cex, lNx_cex, dft2]
  have hterm : ∀ y ∈ Finset.range 64, ∀ x ∈ Finset.range 64,
      sino (cfgOf zeroSinoParams) 0 y x *
        Complex.exp (-(2 * (π : ℂ) * Complex.I) *
          (((0 : ℕ) : ℂ) * (y : ℂ) / ((64 : ℕ) : ℂ) + (k : ℂ) * (x : ℂ) / ((64 : ℕ) : ℂ))) =
      (if y = 0 ∨ x = 0 then 1 else 0) *
        Complex.exp (-(2 * (π : ℂ) * Complex.I) * ((k : ℂ) * (x : ℂ) / 64)) := by
    intro y hy x hx
    rw [sino_cex (Finset.mem_range.mp hy) (Finset.mem_range.mp hx)]
    congr 2
    push_cast
    ring
  rw [Finset.sum_congr rfl fun y hy => Finset.sum_congr rfl fun x hx => hterm y hy x hx]
  have hrow0 : ∑ x ∈ Finset.range 64,
      (if (0 : ℕ) = 0 ∨ x = 0 then (1 : ℂ) else 0) *
        Complex.exp (-(2 * (π : ℂ) * Complex.I) * ((k : ℂ) * (x : ℂ) / 64)) = 0 := by
    rw [Finset.sum_congr rfl fun x _ => by
      rw [if_pos (Or.inl rfl), one_mul]]
    exact expsum64 hdvd
  have hrown : ∀ y ∈ Finset.range 64, y ≠ 0 →
      ∑ x ∈ Finset.range 64,
        (if y = 0 ∨ x = 0 then (1 : ℂ) else 0) *
          Complex.exp (-(2 * (π : ℂ) * Complex.I) * ((k : ℂ) * (x : ℂ) / 64)) = 1 := by
    intro y _ hy0
    have hsummand : ∀ x ∈ Finset.range 64,
        (if y = 0 ∨ x = 0 then (1 : ℂ) else 0) *
          Complex.exp (-(2 * (π : ℂ) * Complex.I) * ((k : ℂ) * (x : ℂ) / 64)) =
        if x = 0 then 1 else 0 := by
      intro x _
      rcases Nat.eq_zero_or_pos x with rfl | hxpos
      · rw [if_pos (Or.inr rfl), if_pos rfl, one_mul]
        norm_num
      · rw [if_neg (by omega), if_neg (by omega), zero_mul]
    rw [Finset.sum_congr rfl hsummand]
    rw [Finset.sum_ite_eq' (Finset.range 64) 0 (fun _ => (1 : ℂ))]
    simp
  rw [← Finset.sum_erase_add (Finset.range 64) _ (Finset.mem_range.mpr (by norm_num : (0:ℕ) < 64))]
  rw [hrow0, add_zero]
  rw [Finset.sum_congr rfl fun y hy =>
    hrown y (Finset.mem_erase.mp hy).2 (Finset.mem_erase.mp hy).1]
  rw [Finset.sum_const, Finset.card_erase_of_mem (Finset.mem_range.mpr (by norm_num)),
    Finset.card_range]
  norm_num




lemma dphi0_cex : dphi0 (cfgOf zeroSinoParams) = 2 * π := by
  rw [dphi0]
  norm_num [cfgOf, zeroSinoParams]

lemma prefactor_cex_01 :
    prefactor (cfgOf zeroSinoParams) 0 1 =
      -Complex.I * ((3 * π / 80 : ℝ) : ℂ) * ((π / 32 : ℝ) : ℂ) := by
  rw [prefactor, km_cex, lNx_cex, kfreq_64_1, filter_klp_cex_01, dphi0_cex]
  rw [show (cfgOf zeroSinoParams).lD = (0 : ℝ) from rfl]
  rw [abs_of_pos (by positivity : (0 : ℝ) < π / 32)]
  rw [show (((0 : ℝ)) : ℂ) = 0 from by norm_num, mul_zero, Complex.exp_zero]
  have hπ : ((π : ℝ) : ℂ) ≠ 0 := Complex.ofReal_ne_zero.mpr Real.pi_ne_zero
  push_cast
  field_simp
  ring

lemma prefactor_cex_0_63 :
    prefactor (cfgOf zeroSinoParams) 0 63 =
      -Complex.I * ((3 * π / 80 : ℝ) : ℂ) * ((π / 32 : ℝ) : ℂ) := by
  rw [prefactor, km_cex, lNx_cex, kfreq_64_63, filter_klp_cex_0_63, dphi0_cex]
  rw [show (cfgOf zeroSinoParams).lD = (0 : ℝ) from rfl]
  rw [show |(-(π / 32) : ℝ)| = π / 32 from by
    rw [abs_neg]; exact abs_of_pos (by positivity)]
  rw [show (((0 : ℝ)) : ℂ) = 0 from by norm_num, mul_zero, Complex.exp_zero]
  have hπ : ((π : ℝ) : ℂ) ≠ 0 := Complex.ofReal_ne_zero.mpr Real.pi_ne_zero
  push_cast
  field_simp
  ring

lemma Mterm_cex_01 : Mterm (cfgOf zeroSinoParams) 0 1 = Real.sqrt 11 / 6 := by
  rw [Mterm, km_cex, lNx_cex, lNy_cex, kfreq_64_1, kfreq_64_0, filter_klp_cex_01]
  rw [show ((3 * π / 80) ^ 2 - (π / 32) ^ 2 - (0 : ℝ) ^ 2) * 1 = (π / 160) ^ 2 * 11 from by
    ring]
  rw [Real.sqrt_mul (sq_nonneg _) 11]
  rw [Real.sqrt_sq (by positivity : (0 : ℝ) ≤ π / 160)]
  have hπ : (π : ℝ) ≠ 0 := Real.pi_ne_zero
  field_simp
  ring

lemma Mterm_cex_0_63 : Mterm (cfgOf zeroSinoParams) 0 63 = Real.sqrt 11 / 6 := by
  rw [Mterm, km_cex, lNx_cex, lNy_cex, kfreq_64_63, kfreq_64_0, filter_klp_cex_0_63]
  rw [show ((3 * π / 80) ^ 2 - (-(π / 32)) ^ 2 - (0 : ℝ) ^ 2) * 1 = (π / 160) ^ 2 * 11 from by
    ring]
  rw [Real.sqrt_mul (sq_nonneg _) 11]
  rw [Real.sqrt_sq (by positivity : (0 : ℝ) ≤ π / 160)]
  have hπ : (π : ℝ) ≠ 0 := Real.pi_ne_zero
  field_simp
  ring

lemma zcoord_cex_0 : zcoord (cfgOf zeroSinoParams) 0 = -(63 / 2 : ℝ) := by
  rw [zcoord, lnMax_cex]
  norm_num

lemma filter2_cex_01 :
    filter2 (cfgOf zeroSinoParams) 0 0 1 =
      Complex.exp ((thetaCex : ℝ) * Complex.I) := by
  rw [filter2, Mpm1, Mterm_cex_01, km_cex, zcoord_cex_0]
  congr 1
  rw [thetaCex]
  push_cast
  ring

lemma filter2_cex_0_63 :
    filter2 (cfgOf zeroSinoParams) 0 0 63 =
      Complex.exp ((thetaCex : ℝ) * Complex.I) := by
  rw [filter2, Mpm1, Mterm_cex_0_63, km_cex, zcoord_cex_0]
  congr 1
  rw [thetaCex]
  push_cast
  ring

lemma re_mul_neg_I_exp (R t : ℝ) :
    ((R : ℂ) * (-Complex.I * Complex.exp ((t : ℝ) * Complex.I))).re = R * Real.sin t := by
  rw [Complex.exp_mul_I]
  rw [← Complex.ofReal_cos, ← Complex.ofReal_sin]
  simp [Complex.mul_re, Complex.mul_im, Complex.sin_ofReal_re]



lemma projection_cex_zero {l k : ℕ} (hl : l < 64) (hk : k < 64)
    (h : ¬(l = 0 ∧ (k = 1 ∨ k = 63))) :
    projection (cfgOf zeroSinoParams) 0 l k = 0 := by
  rw [projection, prefactor_cex_zero hl hk h, mul_zero]

lemma filtered_proj_cex_eval :
    filtered_proj (cfgOf zeroSinoParams) 0 0 0 0 =
      idft2val 64 64 (fun l k => filter2 (cfgOf zeroSinoParams) 0 l k *
        projection (cfgOf zeroSinoParams) 0 l k) 1 1 / ((4096 : ℝ) : ℂ) := by
  rw [filtered_proj, cPads_cex, lNx_cex, lNy_cex]
  norm_num

lemma idft_cex_collapse :
    idft2val 64 64 (fun l k => filter2 (cfgOf zeroSinoParams) 0 l k *
        projection (cfgOf zeroSinoParams) 0 l k) 1 1 =
      ((63 * (3 * π / 80) * (π / 32) * (2 * Real.cos (π / 32)) : ℝ) : ℂ) *
        (-Complex.I * Complex.exp ((thetaCex : ℝ) * Complex.I)) := by
  rw [idft2val]
  have houter : ∀ l ∈ Finset.range 64, l ≠ 0 →
      (∑ k ∈ Finset.range 64,
        (filter2 (cfgOf zeroSinoParams) 0 l k * projection (cfgOf zeroSinoParams) 0 l k) *
          Complex.exp ((2 * (π : ℂ) * Complex.I) *
            ((l : ℂ) * ((1 : ℕ) : ℂ) / ((64 : ℕ) : ℂ) +
              (k : ℂ) * ((1 : ℕ) : ℂ) / ((64 : ℕ) : ℂ)))) = 0 := by
    intro l hl hl0
    refine Finset.sum_eq_zero fun k hk => ?_
    rw [projection_cex_zero (Finset.mem_range.mp hl) (Finset.mem_range.mp hk)
      (fun hc => hl0 hc.1), mul_zero, zero_mul]
  rw [Finset.sum_eq_single_of_mem 0 (Finset.mem_range.mpr (by norm_num)) houter]
  have hsub : ({1, 63} : Finset ℕ) ⊆ Finset.range 64 := by
    intro a ha
    simp only [Finset.mem_insert, Finset.mem_singleton] at ha
    rcases ha with rfl | rfl <;> simp
  have hzero : ∀ k ∈ Finset.range 64, k ∉ ({1, 63} : Finset ℕ) →
      (filter2 (cfgOf zeroSinoParams) 0 0 k * projection (cfgOf zeroSinoParams) 0 0 k) *
        Complex.exp ((2 * (π : ℂ) * Complex.I) *
          (((0 : ℕ) : ℂ) * ((1 : ℕ) : ℂ) / ((64 : ℕ) : ℂ) +
            (k : ℂ) * ((1 : ℕ) : ℂ) / ((64 : ℕ) : ℂ))) = 0 := by
    intro k hk hknot
    simp only [Finset.mem_insert, Finset.mem_singleton] at hknot
    push_neg at hknot
    rw [projection_cex_zero (by norm_num) (Finset.mem_range.mp hk)
      (fun hc => by rcases hc.2 with h1 | h1; exacts [hknot.1 h1, hknot.2 h1]),
      mul_zero, zero_mul]
  rw [← Finset.sum_subset hsub hzero]
  rw [Finset.sum_pair (by norm_num : (1 : ℕ) ≠ 63)]
  rw [projection, projection, dft2_cex (Or.inl rfl), dft2_cex (Or.inr rfl),
    prefactor_cex_01, prefactor_cex_0_63, filter2_cex_01, filter2_cex_0_63]
  have hph1 : Complex.exp ((2 * (π : ℂ) * Complex.I) *
      (((0 : ℕ) : ℂ) * ((1 : ℕ) : ℂ) / ((64 : ℕ) : ℂ) +
        ((1 : ℕ) : ℂ) * ((1 : ℕ) : ℂ) / ((64 : ℕ) : ℂ))) =
      Complex.exp (((π / 32 : ℝ) : ℂ) * Complex.I) := by
    congr 1
    push_cast
    ring
  have hph63 : Complex.exp ((2 * (π : ℂ) * Complex.I) *
      (((0 : ℕ) : ℂ) * ((1 : ℕ) : ℂ) / ((64 : ℕ) : ℂ) +
        ((63 : ℕ) : ℂ) * ((1 : ℕ) : ℂ) / ((64 : ℕ) : ℂ))) =
      Complex.exp (-((π / 32 : ℝ) : ℂ) * Complex.I) := by
    rw [show (2 * (π : ℂ) * Complex.I) *
        (((0 : ℕ) : ℂ) * ((1 : ℕ) : ℂ) / ((64 : ℕ) : ℂ) +
          ((63 : ℕ) : ℂ) * ((1 : ℕ) : ℂ) / ((64 : ℕ) : ℂ)) =
        2 * (π : ℂ) * Complex.I + -((π / 32 : ℝ) : ℂ) * Complex.I from by
      push_cast; ring]
    rw [Complex.exp_add, Complex.exp_two_pi_mul_I, one_mul]
  rw [hph1, hph63]
  have h2c : Complex.exp (((π / 32 : ℝ) : ℂ) * Complex.I) +
      Complex.exp (-((π / 32 : ℝ) : ℂ) * Complex.I) =
      2 * ((Real.cos (π / 32) : ℝ) : ℂ) := by
    calc Complex.exp (((π / 32 : ℝ) : ℂ) * Complex.I) +
        Complex.exp (-((π / 32 : ℝ) : ℂ) * Complex.I) =
        2 * Complex.cos ((π / 32 : ℝ) : ℂ) := (Complex.two_cos ((π / 32 : ℝ) : ℂ)).symm
      _ = 2 * ((Real.cos (π / 32) : ℝ) : ℂ) := by rw [Complex.ofReal_cos]
  rw [show ((63 * (3 * π / 80) * (π / 32) * (2 * Real.cos (π / 32)) : ℝ) : ℂ) =
    63 * ((3 * π / 80 : ℝ) : ℂ) * ((π / 32 : ℝ) : ℂ) *
      (2 * ((Real.cos (π / 32) : ℝ) : ℂ)) from by push_cast; ring]
  linear_combination (Complex.exp (((thetaCex : ℝ) : ℂ) * Complex.I) *
    (63 * (-Complex.I * ((3 * π / 80 : ℝ) : ℂ) * ((π / 32 : ℝ) : ℂ)))) * h2c

lemma filtered_proj_cex_re :
    (filtered_proj (cfgOf zeroSinoParams) 0 0 0 0).re =
      63 * (3 * π / 80) * (π / 32) * (2 * Real.cos (π / 32)) / 4096 *
        Real.sin thetaCex := by
  rw [filtered_proj_cex_eval, idft_cex_collapse]
  rw [show (((63 * (3 * π / 80) * (π / 32) * (2 * Real.cos (π / 32)) : ℝ) : ℂ) *
      (-Complex.I * Complex.exp ((thetaCex : ℝ) * Complex.I))) / ((4096 : ℝ) : ℂ) =
    ((63 * (3 * π / 80) * (π / 32) * (2 * Real.cos (π / 32)) / 4096 : ℝ) : ℂ) *
      (-Complex.I * Complex.exp ((thetaCex : ℝ) * Complex.I)) from by
    push_cast
    ring]
  exact re_mul_neg_I_exp _ _

lemma sin_thetaCex_ne : Real.sin thetaCex ≠ 0 := by
  intro h
  rw [Real.sin_eq_zero_iff] at h
  obtain ⟨n, hn⟩ := h
  have hpi := Real.pi_ne_zero
  have h11 : Irrational (Real.sqrt 11) := by
    have h := (by norm_num : Nat.Prime 11).irrational_sqrt
    simpa using h
  have hθ : thetaCex = 189 / 160 * (1 - Real.sqrt 11 / 6) * π := by
    rw [thetaCex]; ring
  rw [hθ] at hn
  have h2 : (n : ℝ) = 189 / 160 * (1 - Real.sqrt 11 / 6) := by
    apply mul_right_cancel₀ hpi
    linear_combination hn
  have hs : ((6 - 320 * n / 63 : ℚ) : ℝ) = Real.sqrt 11 := by
    push_cast
    linear_combination (-960 / 189 : ℝ) * h2
  exact h11 ⟨(6 - 320 * n / 63 : ℚ), hs⟩



lemma outarr_cex :
    outarrReal rotId (cfgOf zeroSinoParams) 0 0 0 =
      (filtered_proj (cfgOf zeroSinoParams) 0 0 0 0).re := by
  rw [outarrReal]
  show (∑ i ∈ Finset.range 1, rotContribRe rotId (cfgOf zeroSinoParams) i 0 0 0) = _
  rw [Finset.sum_range_one, rotContribRe]
  rfl

/-- Claim C8 counterexample:  The claim fails as stated: for the all-zero
1×63×63 sinogram of `zeroSinoParams` (options: `padding=(True,True)`,
`padfac=1`, `padval=1`, `onlyreal=True`, single angle 0 with the identity
rotation), the call succeeds and the returned volume is nonzero at
`(0,0,0)` — the linear-ramp padding to the nonzero `padval` injects energy
into the reconstruction. -/
theorem claim_C8_counterexample :
    zeroSinoParams.uSin = (fun _ _ _ => (0 : ℂ)) ∧
    zeroSinoParams.padval = some 1 ∧
    backpropagate_3d_real rotId zeroSinoParams =
      .ok (outarrReal rotId (cfgOf zeroSinoParams)) ∧
    outarrReal rotId (cfgOf zeroSinoParams) 0 0 0 ≠ 0 := by
  refine ⟨rfl, rfl, rfl, ?_⟩
  rw [outarr_cex, filtered_proj_cex_re]
  have hcos : 0 < Real.cos (π / 32) := by
    refine Real.cos_pos_of_mem_Ioo ⟨?_, ?_⟩ <;>
      · have := Real.pi_pos
        linarith
  have hpos : 0 < 63 * (3 * π / 80) * (π / 32) * (2 * Real.cos (π / 32)) / 4096 := by
    have := Real.pi_pos
    positivity
  exact mul_ne_zero (ne_of_gt hpos) sin_thetaCex_ne


end ODT
